import Mathlib

/-!
Verification of the pslmap-rs target resolver and result aggregator.

The development shallowly embeds the Rust sources of the repository:
- src/tp.rs        (TargetParser: ports parsing, address classification,
                    target expansion, batch resolution)
- src/main.rs      (the zero-target check in main)
- src/hd.rs        (host discovery aggregation and report)
- src/ps.rs        (port scanning aggregation and report)
- src/od.rs        (OS detection aggregation and report)

Rust strings are modelled as lists of characters; a Rust function that can
panic is modelled as returning an Option, with none standing for the panic.
External collaborators (the pistol scanning engine, DNS, the subnetwork
range pools, the std IPv6 parser) are collected in an `Externals` record
over which theorems quantify; concrete modelled instances are provided for
evaluation.
-/

namespace Pslmap

/-- Rust strings are modelled as lists of characters. -/
abbrev Str := List Char

/-- Conversion from a Lean string literal to the model type. -/
def str (s : String) : Str := s.data

/-- Whitespace test matching the characters removed by Rust str::trim on ASCII input. -/
def isWs (c : Char) : Bool := c == ' ' || c == '\t' || c == '\n' || c == '\r'

/-- Embedding of Rust str::trim (restricted to ASCII whitespace). -/
def trim (s : Str) : Str := ((s.dropWhile isWs).reverse.dropWhile isWs).reverse

/-- Embedding of Rust str::split on a one-character separator: n separators
yield n + 1 parts, empty parts included. -/
def splitOnChar (sep : Char) : Str → List Str
  | [] => [[]]
  | c :: cs =>
    if c = sep then [] :: splitOnChar sep cs
    else
      match splitOnChar sep cs with
      | [] => [[c]]
      | p :: ps => (c :: p) :: ps

/-- Embedding of the split-filter-map pipeline used throughout tp.rs:
split on a separator, drop parts that trim to nothing, trim the rest. -/
def splitTrimNonempty (sep : Char) (s : Str) : List Str :=
  ((splitOnChar sep s).filter (fun x => !(trim x).isEmpty)).map trim

/-- Decimal digit value of a character. -/
def digitVal (c : Char) : Option Nat :=
  if c.isDigit then some (c.toNat - '0'.toNat) else none

/-- Accumulating decimal parse over a character list; fails on a non-digit. -/
def parseNatCore : Str → Nat → Option Nat
  | [], acc => some acc
  | c :: cs, acc =>
    match digitVal c with
    | some d => parseNatCore cs (acc * 10 + d)
    | none => none

/-- Model of Rust u16::from_str as used by ports_parser: an optional plus
sign, then one or more decimal digits, value at most 65535. -/
def parseU16 (s : Str) : Option Nat :=
  let body := match s with
    | '+' :: rest => rest
    | _ => s
  match body with
  | [] => none
  | _ =>
    match parseNatCore body 0 with
    | some v => if v ≤ 65535 then some v else none
    | none => none

/-- The inclusive Rust range start..=end as a list. -/
def rangeIncl (a b : Nat) : List Nat := List.range' a (b + 1 - a)

/-- Embedding of the per-segment body of the loop in
TargetParser::ports_parser (src/tp.rs lines 52-78): a dash segment with
exactly two nonempty parts is parsed and expanded when start < end and
panics otherwise; a dash segment with any other number of nonempty parts is
skipped; a bare segment is parsed as a single port. none models a panic. -/
def portsSeg (acc : List Nat) (ps : Str) : Option (List Nat) :=
  if ps.contains '-' then
    match splitTrimNonempty '-' ps with
    | [sa, sb] =>
      match parseU16 sa, parseU16 sb with
      | some a, some b => if a < b then some (acc ++ rangeIncl a b) else none
      | _, _ => none
    | _ => some acc
  else
    match parseU16 ps with
    | some p => some (acc ++ [p])
    | none => none

/-- The segment loop of TargetParser::ports_parser. -/
def portsFold : List Nat → List Str → Option (List Nat)
  | acc, [] => some acc
  | acc, s :: rest =>
    match portsSeg acc s with
    | some acc2 => portsFold acc2 rest
    | none => none

/-- Embedding of TargetParser::ports_parser (src/tp.rs lines 32-83).
none models a panic. -/
def portsParse (ports : Option Str) : Option (List Nat) :=
  match ports with
  | none => some []
  | some ps =>
    if (trim ps).length = 0 then some []
    else
      let ports_split := if ps.contains ',' then splitTrimNonempty ',' ps else [ps]
      portsFold [] ports_split

/-- IP addresses, the v4 value and the v6 value both as a number; v4 orders
before v6, as with Rust std IpAddr. -/
inductive IpAddr where
  | v4 (a : Nat)
  | v6 (a : Nat)
deriving DecidableEq, Repr

/-- The strict BTreeMap key order on IpAddr: every v4 before every v6,
numeric within a family. -/
def ipLtB : IpAddr → IpAddr → Bool
  | IpAddr.v4 a, IpAddr.v4 b => a < b
  | IpAddr.v4 _, IpAddr.v6 _ => true
  | IpAddr.v6 _, IpAddr.v4 _ => false
  | IpAddr.v6 a, IpAddr.v6 b => a < b

/-- Model of Rust Ipv4Addr::from_str for one octet: decimal digits only, no
leading zero except the octet 0 itself, value at most 255. -/
def parseOctet (s : Str) : Option Nat :=
  match s with
  | [] => none
  | c :: cs =>
    if !(c :: cs).all Char.isDigit then none
    else if c = '0' ∧ cs ≠ [] then none
    else
      match parseNatCore (c :: cs) 0 with
      | some v => if v ≤ 255 then some v else none
      | none => none

/-- Model of Rust Ipv4Addr::from_str: exactly four dot-separated octets. -/
def parseIpv4 (s : Str) : Option Nat :=
  match (splitOnChar '.' s).mapM parseOctet with
  | some [a, b, c, d] => some (((a * 256 + b) * 256 + c) * 256 + d)
  | _ => none

/-- Hexadecimal digit value of a character. -/
def hexVal (c : Char) : Option Nat :=
  if c.isDigit then some (c.toNat - '0'.toNat)
  else if 'a' ≤ c ∧ c ≤ 'f' then some (c.toNat - 'a'.toNat + 10)
  else if 'A' ≤ c ∧ c ≤ 'F' then some (c.toNat - 'A'.toNat + 10)
  else none

/-- One hexadecimal group of an IPv6 literal: one to four hex digits. -/
def parseHexGroup (s : Str) : Option Nat :=
  match s.mapM hexVal with
  | some ds => if 1 ≤ ds.length ∧ ds.length ≤ 4 then some (ds.foldl (fun a d => a * 16 + d) 0) else none
  | none => none

/-- Modelled from the spec: the std Ipv6Addr::from_str parser used by the
bare-literal and range branches is external library code; the spec only
requires that IPv6 literals parse. The model accepts the uncompressed form
of eight colon-separated hexadecimal groups. -/
def parseIpv6Model (s : Str) : Option Nat :=
  match (splitOnChar ':' s).mapM parseHexGroup with
  | some gs => if gs.length = 8 then some (gs.foldl (fun a g => a * 65536 + g) 0) else none
  | none => none

/-- One concrete scan endpoint, as pistol's Target: address, optional port
list, optional provenance token. -/
structure Target where
  addr : IpAddr
  ports : Option (List Nat)
  origin : Option Str
deriving DecidableEq, Repr

/-- Embedding of pistol Target::new: address and ports, no origin. -/
def Target.new (addr : IpAddr) (ports : Option (List Nat)) : Target :=
  { addr := addr, ports := ports, origin := none }

/-- External collaborators of the target parser: DNS resolution, the std
IPv6 parser, pistol Target::from_subnet and the subnetwork range pools.
Theorems quantify over this record where the claim allows it. -/
structure Externals where
  dns : Str → Option (List IpAddr)
  parseV6 : Str → Option Nat
  fromSubnet : Str → Option (List Nat) → Option (List Target)
  crossV4 : Nat → Nat → Option (List Nat)
  crossV6 : Nat → Nat → Option (List Nat)

/-- Modelled from the spec: the file db/tlds-alpha-by-domain.txt is data of
the repository not present under src/; per the spec and the source comment
it is the IANA top-level-domain list, a comment line starting with a hash
followed by one uppercase TLD per line. A small representative registry is
used. -/
def tldsFileLines : List Str :=
  [str "# Version 2025080800, Last Updated Fri Aug 8 2025", str "COM", str "NET", str "ORG"]

/-- Uppercase a modelled string (ASCII). -/
def toUpperStr (s : Str) : Str := s.map Char.toUpper

/-- Lowercase a modelled string (ASCII). -/
def toLowerStr (s : Str) : Str := s.map Char.toLower

/-- Rust str::starts_with for the hash character. -/
def startsHash : Str → Bool
  | '#' :: _ => true
  | _ => false

/-- Embedding of get_all_tlds (src/tp.rs lines 17-27): for every line of
the registry file that does not start with a hash, push its uppercase form
and then its lowercase form. -/
def getAllTlds : List Str :=
  tldsFileLines.foldr
    (fun line acc => if startsHash line then acc else toUpperStr line :: toLowerStr line :: acc) []

/-- The domain guess of the addr_parser closure (src/tp.rs lines 94-107):
split the token on dots, trim the parts, and test the last part for exact
membership in the TLD list. -/
def isDomainTok (addr_str : Str) : Bool :=
  let domian_guess_split := (splitOnChar '.' addr_str).map trim
  let tld := if domian_guess_split.length > 0 then some domian_guess_split.getLast! else none
  match tld with
  | some t => getAllTlds.contains t
  | none => false

/-- Embedding of the result-collection loop of the domain branch of the
addr_parser closure (src/tp.rs lines 182-199): keep a v4 answer when the
IPv6-first toggle is off, keep a v6 answer when it is on, tagging each kept
address with the token as origin. -/
def domainCollect (ipv6First : Bool) (addr_str : Str) (ports : Option (List Nat))
    (query_ret : List IpAddr) : List Target :=
  query_ret.foldl
    (fun ret ip =>
      match ip with
      | IpAddr.v4 _ =>
        if !ipv6First then ret ++ [{ addr := ip, ports := ports, origin := some addr_str }] else ret
      | IpAddr.v6 _ =>
        if ipv6First then ret ++ [{ addr := ip, ports := ports, origin := some addr_str }] else ret)
    []

/-- Embedding of the addr_parser closure of TargetParser::parser
(src/tp.rs lines 92-203). `addrs` is the full input string captured by the
closure; `addr_str` is the current token. In the bare-literal branch the
source parses the captured `addrs`, not `addr_str`; the embedding keeps
that behaviour. none models a panic. -/
def addrParse (ext : Externals) (ipv6First : Bool) (addrs : Str) (addr_str : Str)
    (ports : Option (List Nat)) : Option (List Target) :=
  if !isDomainTok addr_str then
    if addr_str.contains '-' then
      match splitTrimNonempty '-' addr_str with
      | [start_ip, end_ip] =>
        if start_ip.contains ':' || end_ip.contains ':' then
          match ext.parseV6 start_ip, ext.parseV6 end_ip with
          | some s6, some e6 =>
            match ext.crossV6 s6 e6 with
            | some ips =>
              some (ips.map (fun ip =>
                { addr := IpAddr.v6 ip, ports := ports, origin := some addr_str }))
            | none => none
          | _, _ => none
        else
          match parseIpv4 start_ip, parseIpv4 end_ip with
          | some s4, some e4 =>
            match ext.crossV4 s4 e4 with
            | some ips =>
              some (ips.map (fun ip =>
                { addr := IpAddr.v4 ip, ports := ports, origin := some addr_str }))
            | none => none
          | _, _ => none
      | _ => some []
    else if addr_str.contains '/' then
      ext.fromSubnet addr_str ports
    else
      if addr_str.contains ':' then
        match ext.parseV6 addrs with
        | some ip => some [Target.new (IpAddr.v6 ip) ports]
        | none => none
      else
        match parseIpv4 addrs with
        | some ip => some [Target.new (IpAddr.v4 ip) ports]
        | none => none
  else
    match ext.dns addr_str with
    | none => none
    | some query_ret => some (domainCollect ipv6First addr_str ports query_ret)

/-- The comma tokenisation of TargetParser::parser (src/tp.rs
lines 205-216). -/
def commaTokens (addrs : Str) : List Str :=
  if addrs.contains ',' then splitTrimNonempty ',' addrs else [addrs]

/-- The token loop of TargetParser::parser (src/tp.rs lines 218-221). -/
def targetsFold (ext : Externals) (ipv6First : Bool) (addrs : Str) (portsList : List Nat) :
    List Str → List Target → Option (List Target)
  | [], acc => some acc
  | t :: ts, acc =>
    match addrParse ext ipv6First addrs t (some portsList) with
    | some r => targetsFold ext ipv6First addrs portsList ts (acc ++ r)
    | none => none

/-- Embedding of TargetParser::parser (src/tp.rs lines 84-223). none models
a panic. -/
def parseAddrs (ext : Externals) (ipv6First : Bool) (addrs : Str) (ports : Option Str) :
    Option (List Target) :=
  if (trim addrs).length = 0 then some []
  else
    match portsParse ports with
    | none => none
    | some portsList => targetsFold ext ipv6First addrs portsList (commaTokens addrs) []

/-- Embedding of TargetParser::target_from_input (src/tp.rs
lines 237-239). -/
def targetFromInput (ext : Externals) (ipv6First : Bool) (target_addr : Str)
    (target_ports : Option Str) : Option (List Target) :=
  parseAddrs ext ipv6First target_addr target_ports

/-- The line loop of TargetParser::target_from_file (src/tp.rs
lines 228-235). -/
def linesFold (ext : Externals) (ipv6First : Bool) (target_ports : Option Str) :
    List Str → List Target → Option (List Target)
  | [], acc => some acc
  | l :: ls, acc =>
    match parseAddrs ext ipv6First l target_ports with
    | some t => linesFold ext ipv6First target_ports ls (acc ++ t)
    | none => none

/-- Embedding of TargetParser::target_from_file (src/tp.rs lines 224-236),
with the already-read lines of the file as input. -/
def targetFromFile (ext : Externals) (ipv6First : Bool) (lines : List Str)
    (target_ports : Option Str) : Option (List Target) :=
  linesFold ext ipv6First target_ports lines []

/-- Embedding of the zero-target check in main (src/main.rs
lines 376-378): main panics when the accumulated target list is empty. -/
def mainCheck (targets : List Target) : Option (List Target) :=
  if targets.length = 0 then none else some targets

/-- Modelled from the spec: the subnetwork CrossIpv4Pool and CrossIpv6Pool
enumerate every address from start to end inclusive and constructing the
pool fails when start exceeds end. -/
def crossPoolModel (s e : Nat) : Option (List Nat) :=
  if s ≤ e then some (List.range' s (e + 1 - s)) else none

/-- Modelled from the spec: pistol Target::from_subnet enumerates every
address of the CIDR block, each resulting target carrying the given ports
and the subnet token as origin. Only the IPv4 form is modelled. -/
def fromSubnetModel (tok : Str) (ports : Option (List Nat)) : Option (List Target) :=
  match splitOnChar '/' tok with
  | [base, plen] =>
    match parseIpv4 base, parseNatCore plen 0 with
    | some b, some k =>
      if plen ≠ [] ∧ k ≤ 32 then
        let size := 2 ^ (32 - k)
        let lo := b - b % size
        some ((List.range' lo size).map (fun ip =>
          { addr := IpAddr.v4 ip, ports := ports, origin := some tok }))
      else none
    | _, _ => none
  | _ => none

/-- The concrete externals used to evaluate closed statements: modelled
pools, subnet expansion and IPv6 parsing, and a resolver that fails every
lookup. -/
def extModel : Externals :=
  { dns := fun _ => none
    parseV6 := parseIpv6Model
    fromSubnet := fromSubnetModel
    crossV4 := crossPoolModel
    crossV6 := crossPoolModel }

/-! ## Result aggregation (src/hd.rs, src/ps.rs, src/od.rs)

The scanning engine's per-probe records are sorted into BTreeMaps before
rendering; a BTreeMap over a key order is modelled as a key-sorted
association list, insertion replacing an existing binding of the same key.
Probe durations and the wall-clock figure are kept as already-rendered
strings, since their numeric formatting is floating point. -/

/-- Sorted insertion with replacement into an association list: the model
of BTreeMap::insert followed by in-order iteration. -/
def insSorted {K V : Type} [DecidableEq K] (lt : K → K → Bool) (k : K) (v : V) :
    List (K × V) → List (K × V)
  | [] => [(k, v)]
  | (k2, v2) :: rest =>
    if lt k k2 then (k, v) :: (k2, v2) :: rest
    else if k = k2 then (k, v) :: rest
    else (k2, v2) :: insSorted lt k v rest

/-- The strict key order on ports (u16 keys of the inner BTreeMap). -/
def natLtB (a b : Nat) : Bool := a < b

/-- Sorted insertion into the nested map BTreeMap of BTreeMap used by
port_scanning (src/ps.rs lines 186-195): if the address is present, insert
the record into its inner port map, otherwise create a fresh inner map. -/
def insNested {V : Type} (k : IpAddr) (p : Nat) (v : V) :
    List (IpAddr × List (Nat × V)) → List (IpAddr × List (Nat × V))
  | [] => [(k, [(p, v)])]
  | (k2, inner) :: rest =>
    if ipLtB k k2 then (k, [(p, v)]) :: (k2, inner) :: rest
    else if k = k2 then (k2, insSorted natLtB p v inner) :: rest
    else (k2, inner) :: insNested k p v rest

/-- Decimal rendering of a number. -/
def natToStr (n : Nat) : Str := Nat.toDigits 10 n

/-- Rendering of an address: dotted quad for v4; for v6, the uncompressed
hexadecimal form modelled from the std Display implementation. -/
def ipToString : IpAddr → Str
  | IpAddr.v4 a =>
    natToStr (a / 16777216 % 256) ++ str "." ++ natToStr (a / 65536 % 256) ++ str "."
      ++ natToStr (a / 256 % 256) ++ str "." ++ natToStr (a % 256)
  | IpAddr.v6 a =>
    List.intercalate (str ":")
      (((List.range 8).map (fun i => natToStr (a / 65536 ^ (7 - i) % 65536))))

/-- A rendered report: the joined body lines and the tail summary line, as
handed to InfoShow::print. -/
structure Report where
  info : Str
  tail : Str
deriving DecidableEq, Repr

/-- Join body lines as InfoShow receives them. -/
def joinLines (lines : List Str) : Str := List.intercalate (str "\n") lines

/-- The ping status reported by the engine; the source matches Up and
treats every other variant as down. -/
inductive PingStatusE where
  | Up
  | Down
deriving DecidableEq, Repr

/-- One engine ping record: address, status, rendered probe duration. -/
structure PingReport where
  addr : IpAddr
  status : PingStatusE
  cost : Str
deriving DecidableEq, Repr

/-- The address-keyed BTreeMap built by host_discovery_by_ping (src/hd.rs
lines 160-163). -/
def pingMap (recs : List PingReport) : List (IpAddr × PingReport) :=
  recs.foldl (fun btm ping => insSorted ipLtB ping.addr ping btm) []

/-- One step of the tally-and-render loop of host_discovery_by_ping
(src/hd.rs lines 165-188), over the state (hosts_up, hosts_not_up, info):
an up host is counted and rendered, any other host is only counted. -/
def hdStep (st : Nat × Nat × List Str) (kv : IpAddr × PingReport) : Nat × Nat × List Str :=
  match kv.2.status with
  | PingStatusE.Up =>
    (st.1 + 1, st.2.1, st.2.2 ++ [ipToString kv.1 ++ str " -> up (" ++ kv.2.cost ++ str "s)"])
  | PingStatusE.Down => (st.1, st.2.1 + 1, st.2.2)

/-- Embedding of the aggregation and report section of
host_discovery_by_ping (src/hd.rs lines 159-206), from the engine's ping
records to the printed report. -/
def hdAggregate (targets : List Target) (recs : List PingReport) (elapsed : Str) : Report :=
  let st := (pingMap recs).foldl hdStep (0, 0, [])
  let info0 := st.2.2
  let info1 :=
    if st.2.1 > 0 then info0 ++ [str "other " ++ natToStr st.2.1 ++ str " hosts -> down"]
    else info0
  { info := joinLines info1
    tail := str "pslmap done: " ++ natToStr targets.length ++ str " ip addresses ("
      ++ natToStr st.1 ++ str " hosts up) scanned in " ++ elapsed ++ str " seconds" }

/-- The port status reported by the engine for one address and port. -/
inductive PortStatusE where
  | Open
  | Closed
  | Filtered
  | Unfiltered
deriving DecidableEq, Repr

/-- Rendering of a port status, modelled from pistol's Display. -/
def portStatusStr : PortStatusE → Str
  | PortStatusE.Open => str "open"
  | PortStatusE.Closed => str "closed"
  | PortStatusE.Filtered => str "filtered"
  | PortStatusE.Unfiltered => str "unfiltered"

/-- One engine port record: address, port, status, rendered duration. -/
structure PortReport where
  addr : IpAddr
  port : Nat
  status : PortStatusE
  cost : Str
deriving DecidableEq, Repr

/-- The nested BTreeMap built by port_scanning (src/ps.rs lines 186-195). -/
def portMap (recs : List PortReport) : List (IpAddr × List (Nat × PortReport)) :=
  recs.foldl (fun btm report => insNested report.addr report.port report btm) []

/-- One rendered line of the port scanning report (src/ps.rs
lines 207-215). -/
def psLine (protocol : Str) (addr : IpAddr) (port : Nat) (report : PortReport) : Str :=
  ipToString addr ++ str ":" ++ natToStr port ++ str "/" ++ protocol ++ str " -> "
    ++ portStatusStr report.status ++ str " (" ++ report.cost ++ str "s)"

/-- One step of the inner loop of port_scanning (src/ps.rs lines 200-216)
over the state (hosts_up, info): an open port is counted, every port is
rendered. -/
def psStep (protocol : Str) (addr : IpAddr) (st : Nat × List Str) (pv : Nat × PortReport) :
    Nat × List Str :=
  let st1 := match pv.2.status with
    | PortStatusE.Open => (st.1 + 1, st.2)
    | _ => st
  (st1.1, st1.2 ++ [psLine protocol addr pv.1 pv.2])

/-- Embedding of the aggregation and report section of port_scanning
(src/ps.rs lines 185-226). -/
def psAggregate (targets : List Target) (protocol : Str) (recs : List PortReport)
    (elapsed : Str) : Report :=
  let st := (portMap recs).foldl
    (fun st kv => kv.2.foldl (psStep protocol kv.1) st) ((0 : Nat), ([] : List Str))
  { info := joinLines st.2
    tail := str "pslmap done: " ++ natToStr targets.length ++ str " ip addresses ("
      ++ natToStr st.1 ++ str " ports up) scanned in " ++ elapsed ++ str " seconds" }

/-- One engine OS-detection record, as pistol's OsDetect: for a v4 target
each candidate has a name and a list of CPE strings, for a v6 target a name
and one CPE string; cost is the rendered duration. -/
inductive OsDetectE where
  | V4 (addr : IpAddr) (detects : List (Str × List Str)) (cost : Str)
  | V6 (addr : IpAddr) (detects : List (Str × Str)) (cost : Str)
deriving DecidableEq, Repr

/-- The addr() accessor of OsDetect. -/
def OsDetectE.addrOf : OsDetectE → IpAddr
  | OsDetectE.V4 a _ _ => a
  | OsDetectE.V6 a _ _ => a

/-- One rendered line of the OS detection report (src/od.rs
lines 34-59). -/
def odLine : OsDetectE → Str
  | OsDetectE.V4 addr detects cost =>
    ipToString addr ++ str " -> "
      ++ List.intercalate (str "|") (detects.map (fun d => d.1)) ++ str " "
      ++ List.intercalate (str "|") (detects.map (fun d => List.intercalate (str ",") d.2))
      ++ str " (" ++ cost ++ str "s)"
  | OsDetectE.V6 addr detects cost =>
    ipToString addr ++ str " -> "
      ++ List.intercalate (str "|") (detects.map (fun d => d.1)) ++ str " "
      ++ List.intercalate (str "|") (detects.map (fun d => d.2))
      ++ str " (" ++ cost ++ str "s)"

/-- The address-keyed BTreeMap built by os_detection (src/od.rs
lines 27-30). -/
def odMap (dets : List OsDetectE) : List (IpAddr × OsDetectE) :=
  dets.foldl (fun btm report => insSorted ipLtB report.addrOf report btm) []

/-- Embedding of the aggregation and report section of os_detection
(src/od.rs lines 26-68); its tail line carries only the elapsed time. -/
def odAggregate (targets : List Target) (dets : List OsDetectE) (elapsed : Str) : Report :=
  let _ := targets
  { info := joinLines ((odMap dets).map (fun kv => odLine kv.2))
    tail := str "pslmap done: scanned in " ++ elapsed ++ str " seconds" }

/-- Externals whose resolver answers every lookup with the empty record
set, for evaluating the domain branch in isolation. -/
def extDnsEmpty : Externals := { extModel with dns := fun _ => some [] }

/-- Specification-side predicate (section 4.3 of the spec): the address
family kept by domain expansion under the IPv6-first preference. -/
def keepPreferred (ipv6First : Bool) : IpAddr → Bool
  | IpAddr.v4 _ => !ipv6First
  | IpAddr.v6 _ => ipv6First

/-! ## Theorems for the claims -/

/-- C1: the batch result is not the concatenation of per-token expansions.
Evaluating the code at the failing input: the comma list of two bare IPv4
literals panics, because the bare-literal branch of the addr_parser closure
parses the captured whole input string instead of the current token, while
each of the two tokens on its own expands to exactly its one target. -/
theorem c1_code_bug_eval :
    parseAddrs extModel false (str "1.2.3.4,5.6.7.8") none = none
    ∧ parseAddrs extModel false (str "1.2.3.4") none
        = some [Target.new (IpAddr.v4 16909060) (some [])]
    ∧ parseAddrs extModel false (str "5.6.7.8") none
        = some [Target.new (IpAddr.v4 84281096) (some [])] := by
  refine ⟨by decide, by decide, by decide⟩

/-- C2 counterexample: the port specification "80,90-" contains the
malformed range segment "90-", yet port parsing succeeds and returns the
port set [80] that simply omits the bad segment, so a malformed segment is
not always fatal. -/
theorem c2_counterexample : portsParse (some (str "80,90-")) = some [80] := by decide

/-- C2 amended: a bare segment that fails the u16 parse is fatal, a
two-part dash segment with an unparseable bound is fatal, and any segment
that is fatal for every accumulator aborts the whole segment loop; but a
dash segment that does not split into exactly two nonempty parts (such as
"80-" or "1-2-3") is silently skipped, contributing no ports. -/
theorem c2_amended :
    (∀ (acc : List Nat) (s : Str), s.contains '-' = true →
      (splitTrimNonempty '-' s).length ≠ 2 → portsSeg acc s = some acc)
    ∧ (∀ (acc : List Nat) (s : Str), s.contains '-' = false →
        parseU16 s = none → portsSeg acc s = none)
    ∧ (∀ (acc : List Nat) (s sa sb : Str), s.contains '-' = true →
        splitTrimNonempty '-' s = [sa, sb] →
        parseU16 sa = none ∨ parseU16 sb = none → portsSeg acc s = none)
    ∧ (∀ (pre post : List Str) (s : Str) (acc : List Nat),
        (∀ acc2, portsSeg acc2 s = none) → portsFold acc (pre ++ s :: post) = none) := by
  refine ⟨?_, ?_, ?_, ?_⟩
  · intro acc s h1 h2
    simp only [portsSeg, h1, if_true]
    rcases hm : splitTrimNonempty '-' s with _ | ⟨x, _ | ⟨y, _ | ⟨z, zs⟩⟩⟩
    · rfl
    · rfl
    · exact absurd (by rw [hm]; rfl) h2
    · rfl
  · intro acc s h1 h2
    simp only [portsSeg, h1, Bool.false_eq_true, if_false, h2]
  · intro acc s sa sb h1 hm hpar
    simp only [portsSeg, h1, if_true, hm]
    rcases hpar with h | h
    · rw [h]
    · rw [h]
      rcases parseU16 sa with _ | a <;> rfl
  · intro pre post s acc h
    induction pre generalizing acc with
    | nil => simp only [List.nil_append, portsFold, h acc]
    | cons p pre ih =>
      simp only [List.cons_append, portsFold]
      rcases hps : portsSeg acc p with _ | acc2
      · rfl
      · exact ih acc2

/-- C2 witness: concrete instances of the amended statement: the segment
"80-" is skipped, the segment "9x" is fatal, and the two-segment list
containing "9x" aborts as a whole. -/
theorem c2_witness :
    portsSeg [] (str "80-") = some [] ∧ portsSeg [] (str "9x") = none
    ∧ portsFold [] [str "80", str "9x"] = none := by
  refine ⟨c2_amended.1 [] _ (by decide) (by decide),
    c2_amended.2.1 [] _ (by decide) (by decide),
    c2_amended.2.2.2 [str "80"] [] (str "9x") []
      (fun acc2 => c2_amended.2.1 acc2 _ (by decide) (by decide))⟩

/-- C5 counterexample: target_from_input on a whitespace-only input
succeeds and returns the empty target sequence, so the entry points do not
fail on a zero-target result. -/
theorem c5_counterexample : targetFromInput extModel false (str "   ") none = some [] := by
  decide

/-- C5 amended: the resolver entry points can successfully return the empty
target sequence (whitespace-only input yields the empty sequence without
error); the zero-target failure is enforced by the caller in main, which
panics exactly when the accumulated target list is empty. -/
theorem c5_amended :
    targetFromInput extModel false (str "   ") none = some []
    ∧ mainCheck [] = none
    ∧ ∀ ts : List Target, ts ≠ [] → mainCheck ts = some ts := by
  refine ⟨by decide, rfl, ?_⟩
  intro ts h
  unfold mainCheck
  rw [if_neg]
  simpa using h

/-- C5 witness: main's check accepts a concrete nonempty target list. -/
theorem c5_witness :
    mainCheck [Target.new (IpAddr.v4 0) none] = some [Target.new (IpAddr.v4 0) none] :=
  c5_amended.2.2 _ (by decide)

/-- C8: for a single range segment whose two bounds parse as integers at
most 65535, port parsing returns the inclusive range exactly when
start < end strictly, and panics otherwise (both for equal and for
reversed bounds). -/
theorem c8_range_strict (s sa sb : Str) (a b : Nat)
    (hnc : s.contains ',' = false)
    (hd : s.contains '-' = true)
    (ht : (trim s).length ≠ 0)
    (hsplit : splitTrimNonempty '-' s = [sa, sb])
    (ha : parseU16 sa = some a)
    (hb : parseU16 sb = some b) :
    portsParse (some s) = if a < b then some (rangeIncl a b) else none := by
  simp only [portsParse, if_neg ht, hnc, Bool.false_eq_true, if_false]
  simp only [portsFold, portsSeg, hd, if_true, hsplit, ha, hb]
  by_cases hab : a < b
  · simp [hab, portsFold]
  · simp [hab]

/-- C8 witness: the range segment "80-90" expands to the inclusive range
from 80 to 90. -/
theorem c8_witness : portsParse (some (str "80-90")) = some (rangeIncl 80 90) := by
  have h := c8_range_strict (str "80-90") (str "80") (str "90") 80 90
    (by decide) (by decide) (by decide) (by decide) (by decide) (by decide)
  simpa using h

/-- C10: a whitespace-only address input resolves to zero targets without
error, and removing a blank line anywhere in a target file leaves both the
success and the value of file resolution unchanged, for every choice of
externals, preference flag and port specification. -/
theorem c10_blank_inputs :
    (∀ (ext : Externals) (flag : Bool) (s : Str) (ports : Option Str),
      trim s = [] → parseAddrs ext flag s ports = some [])
    ∧ (∀ (ext : Externals) (flag : Bool) (ports : Option Str) (pre post : List Str)
        (blank : Str), trim blank = [] →
        targetFromFile ext flag (pre ++ blank :: post) ports
          = targetFromFile ext flag (pre ++ post) ports) := by
  have h1 : ∀ (ext : Externals) (flag : Bool) (s : Str) (ports : Option Str),
      trim s = [] → parseAddrs ext flag s ports = some [] := by
    intro ext flag s ports h
    unfold parseAddrs
    rw [h]
    rfl
  refine ⟨h1, ?_⟩
  intro ext flag ports pre post blank h
  unfold targetFromFile
  have hgen : ∀ (pre : List Str) (acc : List Target),
      linesFold ext flag ports (pre ++ blank :: post) acc
        = linesFold ext flag ports (pre ++ post) acc := by
    intro pre
    induction pre with
    | nil =>
      intro acc
      simp only [List.nil_append, linesFold, h1 ext flag blank ports h, List.append_nil]
    | cons p rest ih =>
      intro acc
      simp only [List.cons_append, linesFold]
      rcases hp : parseAddrs ext flag p ports with _ | t
      · rfl
      · exact ih (acc ++ t)
  exact hgen pre []

/-- Splitting always yields at least one part. -/
theorem splitOnChar_ne_nil (sep : Char) (s : Str) : splitOnChar sep s ≠ [] := by
  cases s with
  | nil => simp [splitOnChar]
  | cons c cs =>
    unfold splitOnChar
    split
    · simp
    · split
      · simp
      · simp

/-- C4 counterexample: with a registry containing the TLD line "COM", the
lowercase and uppercase spellings classify as domains, but the mixed
capitalisation "CoM" does not: the parser then falls into the bare IPv4
branch and panics, instead of treating the token as a domain. -/
theorem c4_counterexample :
    isDomainTok (str "example.com") = true
    ∧ isDomainTok (str "example.COM") = true
    ∧ isDomainTok (str "example.CoM") = false
    ∧ parseAddrs extDnsEmpty false (str "example.com") none = some []
    ∧ parseAddrs extDnsEmpty false (str "example.CoM") none = none := by
  refine ⟨by decide, by decide, by decide, by decide, by decide⟩

/-- C4 amended: the domain guess tests the token's last dot-separated
segment by exact membership in a list holding the all-uppercase and the
all-lowercase form of every registered TLD, so exactly those two
capitalisations classify as a domain; a mixed capitalisation such as "CoM"
does not. -/
theorem c4_amended :
    (∀ line ∈ tldsFileLines, startsHash line = false →
      ∀ tok : Str,
        ((splitOnChar '.' tok).map trim).getLast! = toUpperStr line
          ∨ ((splitOnChar '.' tok).map trim).getLast! = toLowerStr line →
        isDomainTok tok = true)
    ∧ isDomainTok (str "example.CoM") = false := by
  refine ⟨?_, by decide⟩
  intro line hline hhash tok htok
  have hlen : ((splitOnChar '.' tok).map trim).length > 0 := by
    have hne := splitOnChar_ne_nil '.' tok
    cases hsp : splitOnChar '.' tok with
    | nil => exact absurd hsp hne
    | cons a as => simp [hsp]
  simp only [isDomainTok, hlen, if_true]
  rcases htok with h | h <;> rw [h] <;>
    simp only [tldsFileLines, List.mem_cons, List.not_mem_nil, or_false] at hline <;>
    rcases hline with rfl | rfl | rfl | rfl <;>
    revert hhash <;> decide

/-- C4 witness: the token "foo.net" is classified as a domain through the
registry line "NET" in its lowercase form. -/
theorem c4_witness : isDomainTok (str "foo.net") = true :=
  c4_amended.1 (str "NET") (by decide) (by decide) (str "foo.net") (Or.inr (by decide))

/-- The collection loop of the domain branch with a general accumulator. -/
theorem domainCollect_foldl (flag : Bool) (tok : Str) (ports : Option (List Nat))
    (answers : List IpAddr) (acc : List Target) :
    answers.foldl
      (fun ret ip =>
        match ip with
        | IpAddr.v4 _ =>
          if !flag then ret ++ [{ addr := ip, ports := ports, origin := some tok }] else ret
        | IpAddr.v6 _ =>
          if flag then ret ++ [{ addr := ip, ports := ports, origin := some tok }] else ret)
      acc
    = acc ++ (answers.filter (keepPreferred flag)).map
        (fun ip => { addr := ip, ports := ports, origin := some tok }) := by
  induction answers generalizing acc with
  | nil => simp
  | cons ip rest ih =>
    rw [List.foldl_cons, ih]
    cases ip <;> cases flag <;> simp [keepPreferred, List.filter_cons]

/-- C7: the domain branch keeps exactly the resolved addresses of the
preferred family, in answer order, each tagged with the token as origin;
and when no resolved address matches the preferred family the branch
produces zero targets (without error). -/
theorem c7_domain_family :
    (∀ (flag : Bool) (tok : Str) (ports : Option (List Nat)) (answers : List IpAddr),
      domainCollect flag tok ports answers
        = (answers.filter (keepPreferred flag)).map
            (fun ip => { addr := ip, ports := ports, origin := some tok }))
    ∧ (∀ (flag : Bool) (tok : Str) (ports : Option (List Nat)) (answers : List IpAddr),
        (∀ ip ∈ answers, keepPreferred flag ip = false) →
        domainCollect flag tok ports answers = []) := by
  have h1 : ∀ (flag : Bool) (tok : Str) (ports : Option (List Nat)) (answers : List IpAddr),
      domainCollect flag tok ports answers
        = (answers.filter (keepPreferred flag)).map
            (fun ip => { addr := ip, ports := ports, origin := some tok }) := by
    intro flag tok ports answers
    unfold domainCollect
    simpa using domainCollect_foldl flag tok ports answers []
  refine ⟨h1, ?_⟩
  intro flag tok ports answers hnone
  rw [h1]
  have hfil : answers.filter (keepPreferred flag) = [] := by
    rw [List.filter_eq_nil_iff]
    intro ip hip
    simp [hnone ip hip]
  rw [hfil]
  rfl

/-- C7 witness: a v6-only answer set under the v4 preference yields zero
targets. -/
theorem c7_witness : domainCollect false (str "example.com") none [IpAddr.v6 1] = [] :=
  c7_domain_family.2 false (str "example.com") none [IpAddr.v6 1] (by decide)

/-- C9: when no comma token of the input classifies as a domain, the
parser's result does not depend on the IPv6-first preference toggle, for
every choice of externals and port specification. -/
theorem c9_flag_independent (ext : Externals) (addrs : Str) (ports : Option Str)
    (h : ∀ tok ∈ commaTokens addrs, isDomainTok tok = false) :
    parseAddrs ext true addrs ports = parseAddrs ext false addrs ports := by
  unfold parseAddrs
  by_cases ht : (trim addrs).length = 0
  · rw [if_pos ht, if_pos ht]
  · rw [if_neg ht, if_neg ht]
    rcases hpp : portsParse ports with _ | pl
    · rfl
    · have hgen : ∀ (toks : List Str), (∀ tok ∈ toks, isDomainTok tok = false) →
          ∀ acc, targetsFold ext true addrs pl toks acc
            = targetsFold ext false addrs pl toks acc := by
        intro toks
        induction toks with
        | nil => intro _ acc; rfl
        | cons t ts ih =>
          intro htoks acc
          have hdom : isDomainTok t = false := htoks t (List.mem_cons_self t ts)
          have had : addrParse ext true addrs t (some pl)
              = addrParse ext false addrs t (some pl) := by
            simp only [addrParse, hdom, Bool.not_false, if_true]
          simp only [targetsFold, had]
          rcases hr : addrParse ext false addrs t (some pl) with _ | r
          · rfl
          · exact ih (fun tok htok => htoks tok (List.mem_cons_of_mem t htok)) (acc ++ r)
      exact hgen (commaTokens addrs) h []

/-- C9 witness: a bare IPv4 literal expands identically under both values
of the preference toggle. -/
theorem c9_witness :
    parseAddrs extModel true (str "1.2.3.4") none
      = parseAddrs extModel false (str "1.2.3.4") none :=
  c9_flag_independent extModel (str "1.2.3.4") none (by decide)

/-- The hosts_up tally of the host-discovery loop counts the up entries of
the sorted map, from any starting state. -/
theorem hdStep_count (l : List (IpAddr × PingReport)) (st : Nat × Nat × List Str) :
    (l.foldl hdStep st).1 = st.1 + l.countP (fun kv => kv.2.status == PingStatusE.Up) := by
  induction l generalizing st with
  | nil => simp
  | cons kv rest ih =>
    rw [List.foldl_cons]
    cases hs : kv.2.status <;> simp [hdStep, hs, ih, List.countP_cons] <;> omega

/-- The hosts_up tally of the inner port-scanning loop counts the open
entries of one inner map, from any starting state. -/
theorem psStep_inner_count (proto : Str) (addr : IpAddr) (inner : List (Nat × PortReport))
    (st : Nat × List Str) :
    (inner.foldl (psStep proto addr) st).1
      = st.1 + inner.countP (fun pv => pv.2.status == PortStatusE.Open) := by
  induction inner generalizing st with
  | nil => simp
  | cons pv rest ih =>
    rw [List.foldl_cons]
    cases hs : pv.2.status <;> simp [psStep, hs, ih, List.countP_cons] <;> omega

/-- The hosts_up tally of the full port-scanning loop counts the open
entries across the flattened nested map. -/
theorem psStep_count (proto : Str) (m : List (IpAddr × List (Nat × PortReport)))
    (st : Nat × List Str) :
    (m.foldl (fun st kv => kv.2.foldl (psStep proto kv.1) st) st).1
      = st.1 + (m.flatMap (fun kv => kv.2)).countP
          (fun pv => pv.2.status == PortStatusE.Open) := by
  induction m generalizing st with
  | nil => simp
  | cons kv rest ih =>
    rw [List.foldl_cons, ih, psStep_inner_count]
    simp [List.countP_append]
    omega

/-- C3 counterexample: the OS-detection tail line is the same string for
target batches of different sizes and carries no target count, only the
elapsed time. -/
theorem c3_counterexample :
    (odAggregate [Target.new (IpAddr.v4 1) none] [] (str "0.10")).tail
      = (odAggregate [Target.new (IpAddr.v4 1) none, Target.new (IpAddr.v4 2) none] []
          (str "0.10")).tail
    ∧ (odAggregate [Target.new (IpAddr.v4 1) none, Target.new (IpAddr.v4 2) none] []
        (str "0.10")).tail = str "pslmap done: scanned in 0.10 seconds" := by
  refine ⟨by decide, by decide⟩

/-- C3 amended: the host-discovery and port-scanning reports end with a
tail line stating the total target count, the relevant up-count (up hosts
and open ports respectively) and the elapsed seconds; the OS-detection tail
line states only the elapsed seconds, with no target count. -/
theorem c3_amended :
    ∀ (tg : List Target) (recs : List PingReport) (precs : List PortReport)
      (dets : List OsDetectE) (e proto : Str),
      (hdAggregate tg recs e).tail
        = str "pslmap done: " ++ natToStr tg.length ++ str " ip addresses ("
          ++ natToStr ((pingMap recs).countP (fun kv => kv.2.status == PingStatusE.Up))
          ++ str " hosts up) scanned in " ++ e ++ str " seconds"
      ∧ (psAggregate tg proto precs e).tail
        = str "pslmap done: " ++ natToStr tg.length ++ str " ip addresses ("
          ++ natToStr (((portMap precs).flatMap (fun kv => kv.2)).countP
              (fun pv => pv.2.status == PortStatusE.Open))
          ++ str " ports up) scanned in " ++ e ++ str " seconds"
      ∧ (odAggregate tg dets e).tail
        = str "pslmap done: scanned in " ++ e ++ str " seconds" := by
  intro tg recs precs dets e proto
  refine ⟨?_, ?_, rfl⟩
  · simp only [hdAggregate]
    rw [hdStep_count]
    simp
  · simp only [psAggregate]
    rw [psStep_count]
    simp

/-- A relation that is asymmetric is irreflexive. -/
theorem ltB_irrefl {K : Type} (lt : K → K → Bool)
    (hasym : ∀ a b, lt a b = true → lt b a = false) (a : K) : lt a a = false := by
  cases h : lt a a with
  | false => rfl
  | true =>
    have h2 := hasym a a h
    rw [h] at h2
    exact Bool.noConfusion h2

/-- Asymmetry of the address key order. -/
theorem ipLtB_asymm (a b : IpAddr) (h : ipLtB a b = true) : ipLtB b a = false := by
  cases a <;> cases b <;> simp_all [ipLtB] <;> omega

/-- Totality of the address key order on distinct keys. -/
theorem ipLtB_total (a b : IpAddr) (h : a ≠ b) : ipLtB a b = true ∨ ipLtB b a = true := by
  cases a <;> cases b <;> simp_all [ipLtB]

/-- Transitivity of the address key order. -/
theorem ipLtB_trans (a b c : IpAddr) (h1 : ipLtB a b = true) (h2 : ipLtB b c = true) :
    ipLtB a c = true := by
  cases a <;> cases b <;> cases c <;> simp_all [ipLtB] <;> omega

/-- Asymmetry of the port key order. -/
theorem natLtB_asymm (a b : Nat) (h : natLtB a b = true) : natLtB b a = false := by
  simp_all [natLtB]
  omega

/-- Totality of the port key order on distinct keys. -/
theorem natLtB_total (a b : Nat) (h : a ≠ b) : natLtB a b = true ∨ natLtB b a = true := by
  simp [natLtB]
  omega

/-- Transitivity of the port key order. -/
theorem natLtB_trans (a b c : Nat) (h1 : natLtB a b = true) (h2 : natLtB b c = true) :
    natLtB a c = true := by
  simp_all [natLtB]
  omega

/-- Sorted insertions with distinct keys commute: directed version, for the
first key strictly below the second. -/
theorem insSorted_comm_lt {K V : Type} [DecidableEq K] (lt : K → K → Bool)
    (hasym : ∀ a b, lt a b = true → lt b a = false)
    (htrans : ∀ a b c, lt a b = true → lt b c = true → lt a c = true)
    (k1 k2 : K) (h12 : lt k1 k2 = true) (v1 v2 : V) (m : List (K × V)) :
    insSorted lt k1 v1 (insSorted lt k2 v2 m) = insSorted lt k2 v2 (insSorted lt k1 v1 m) := by
  have h21 : lt k2 k1 = false := hasym _ _ h12
  have hne : k1 ≠ k2 := by
    intro he
    rw [he, ltB_irrefl lt hasym k2] at h12
    exact Bool.noConfusion h12
  have hne2 : k2 ≠ k1 := fun he => hne he.symm
  induction m with
  | nil => simp [insSorted, h12, h21, hne, hne2]
  | cons hd rest ih =>
    rcases hd with ⟨k0, v0⟩
    by_cases hb1 : lt k2 k0 = true
    · have hb2 : lt k1 k0 = true := htrans _ _ _ h12 hb1
      simp [insSorted, hb1, hb2, h12, h21, hne, hne2]
    · rw [Bool.not_eq_true] at hb1
      by_cases he2 : k2 = k0
      · subst he2
        simp [insSorted, h12, h21, hne, hne2, hb1]
      · by_cases hb2 : lt k1 k0 = true
        · simp [insSorted, hb1, hb2, he2, h12, h21, hne, hne2]
        · rw [Bool.not_eq_true] at hb2
          by_cases he1 : k1 = k0
          · subst he1
            simp [insSorted, h12, h21, hne, hne2, hb1, hb2, ltB_irrefl lt hasym k1]
          · simp [insSorted, hb1, hb2, he1, he2, ih]

/-- Sorted insertions with distinct keys commute. -/
theorem insSorted_comm {K V : Type} [DecidableEq K] (lt : K → K → Bool)
    (hasym : ∀ a b, lt a b = true → lt b a = false)
    (htot : ∀ a b, a ≠ b → lt a b = true ∨ lt b a = true)
    (htrans : ∀ a b c, lt a b = true → lt b c = true → lt a c = true)
    (k1 k2 : K) (hne : k1 ≠ k2) (v1 v2 : V) (m : List (K × V)) :
    insSorted lt k1 v1 (insSorted lt k2 v2 m) = insSorted lt k2 v2 (insSorted lt k1 v1 m) := by
  rcases htot k1 k2 hne with h | h
  · exact insSorted_comm_lt lt hasym htrans k1 k2 h v1 v2 m
  · exact (insSorted_comm_lt lt hasym htrans k2 k1 h v2 v1 m).symm

/-- Nested insertions with distinct outer keys commute: directed version. -/
theorem insNested_comm_lt {V : Type} (k1 k2 : IpAddr) (h12 : ipLtB k1 k2 = true)
    (p1 p2 : Nat) (v1 v2 : V) (m : List (IpAddr × List (Nat × V))) :
    insNested k1 p1 v1 (insNested k2 p2 v2 m) = insNested k2 p2 v2 (insNested k1 p1 v1 m) := by
  have h21 : ipLtB k2 k1 = false := ipLtB_asymm _ _ h12
  have hne : k1 ≠ k2 := by
    intro he
    rw [he, ltB_irrefl ipLtB ipLtB_asymm k2] at h12
    exact Bool.noConfusion h12
  have hne2 : k2 ≠ k1 := fun he => hne he.symm
  induction m with
  | nil => simp [insNested, h12, h21, hne, hne2]
  | cons hd rest ih =>
    rcases hd with ⟨k0, inner0⟩
    by_cases hb1 : ipLtB k2 k0 = true
    · have hb2 : ipLtB k1 k0 = true := ipLtB_trans _ _ _ h12 hb1
      simp [insNested, hb1, hb2, h12, h21, hne, hne2]
    · rw [Bool.not_eq_true] at hb1
      by_cases he2 : k2 = k0
      · subst he2
        simp [insNested, h12, h21, hne, hne2, hb1]
      · by_cases hb2 : ipLtB k1 k0 = true
        · simp [insNested, hb1, hb2, he2, h12, h21, hne, hne2]
        · rw [Bool.not_eq_true] at hb2
          by_cases he1 : k1 = k0
          · subst he1
            simp [insNested, h12, h21, hne, hne2, hb1, hb2,
              ltB_irrefl ipLtB ipLtB_asymm k1]
          · simp [insNested, hb1, hb2, he1, he2, ih]

/-- Nested insertions with the same outer key and distinct ports commute. -/
theorem insNested_comm_eq {V : Type} (k : IpAddr) (p1 p2 : Nat) (hp : p1 ≠ p2)
    (v1 v2 : V) (m : List (IpAddr × List (Nat × V))) :
    insNested k p1 v1 (insNested k p2 v2 m) = insNested k p2 v2 (insNested k p1 v1 m) := by
  have hcomm : ∀ inner : List (Nat × V),
      insSorted natLtB p1 v1 (insSorted natLtB p2 v2 inner)
        = insSorted natLtB p2 v2 (insSorted natLtB p1 v1 inner) :=
    fun inner => insSorted_comm natLtB natLtB_asymm natLtB_total natLtB_trans p1 p2 hp v1 v2 inner
  have hirr : ipLtB k k = false := ltB_irrefl ipLtB ipLtB_asymm k
  induction m with
  | nil =>
    simp [insNested, hirr]
    exact hcomm []
  | cons hd rest ih =>
    rcases hd with ⟨k0, inner0⟩
    by_cases hb : ipLtB k k0 = true
    · simp [insNested, hb, hirr]
      exact hcomm []
    · rw [Bool.not_eq_true] at hb
      by_cases he : k = k0
      · subst he
        simp [insNested, hb, hirr]
        exact hcomm inner0
      · simp [insNested, hb, he, ih]

/-- Nested insertions with distinct address-port key pairs commute. -/
theorem insNested_comm {V : Type} (k1 k2 : IpAddr) (p1 p2 : Nat)
    (hne : k1 ≠ k2 ∨ p1 ≠ p2) (v1 v2 : V) (m : List (IpAddr × List (Nat × V))) :
    insNested k1 p1 v1 (insNested k2 p2 v2 m) = insNested k2 p2 v2 (insNested k1 p1 v1 m) := by
  by_cases hk : k1 = k2
  · subst hk
    rcases hne with h | h
    · exact absurd rfl h
    · exact insNested_comm_eq k1 p1 p2 h v1 v2 m
  · rcases ipLtB_total k1 k2 hk with h | h
    · exact insNested_comm_lt k1 k2 h p1 p2 v1 v2 m
    · exact (insNested_comm_lt k2 k1 h p2 p1 v2 v1 m).symm

/-- The ping map is invariant under permutation of records with pairwise
distinct addresses. -/
theorem pingMap_perm (l₁ l₂ : List PingReport)
    (hinj : ∀ x ∈ l₁, ∀ y ∈ l₁, x.addr = y.addr → x = y) (hp : l₁.Perm l₂) :
    pingMap l₁ = pingMap l₂ := by
  unfold pingMap
  refine hp.foldl_eq' ?_ []
  intro x hx y hy z
  by_cases hxy : x = y
  · subst hxy
    rfl
  · have hne : y.addr ≠ x.addr := fun h => hxy (hinj x hx y hy h.symm)
    exact insSorted_comm ipLtB ipLtB_asymm ipLtB_total ipLtB_trans y.addr x.addr hne y x z

/-- The nested port map is invariant under permutation of records with
pairwise distinct address-port pairs. -/
theorem portMap_perm (q₁ q₂ : List PortReport)
    (hinj : ∀ x ∈ q₁, ∀ y ∈ q₁, x.addr = y.addr → x.port = y.port → x = y)
    (hq : q₁.Perm q₂) : portMap q₁ = portMap q₂ := by
  unfold portMap
  refine hq.foldl_eq' ?_ []
  intro x hx y hy z
  by_cases hxy : x = y
  · subst hxy
    rfl
  · have hne : y.addr ≠ x.addr ∨ y.port ≠ x.port := by
      by_cases ha : y.addr = x.addr
      · right
        intro hp2
        exact hxy (hinj x hx y hy ha.symm hp2.symm)
      · left
        exact ha
    exact insNested_comm y.addr x.addr y.port x.port hne y x z

/-- C6 counterexample: two ping records for the same address with opposite
statuses form a two-element sequence whose reversal is a permutation of it,
yet host-discovery aggregation renders different reports for the two
orders, because the later record overwrites the earlier one in the map. -/
theorem c6_counterexample :
    List.Perm
      [({ addr := IpAddr.v4 1, status := PingStatusE.Up, cost := str "0.10" } : PingReport),
        { addr := IpAddr.v4 1, status := PingStatusE.Down, cost := str "0.10" }]
      [{ addr := IpAddr.v4 1, status := PingStatusE.Down, cost := str "0.10" },
        { addr := IpAddr.v4 1, status := PingStatusE.Up, cost := str "0.10" }]
    ∧ hdAggregate []
        [{ addr := IpAddr.v4 1, status := PingStatusE.Up, cost := str "0.10" },
          { addr := IpAddr.v4 1, status := PingStatusE.Down, cost := str "0.10" }] (str "0.10")
      ≠ hdAggregate []
        [{ addr := IpAddr.v4 1, status := PingStatusE.Down, cost := str "0.10" },
          { addr := IpAddr.v4 1, status := PingStatusE.Up, cost := str "0.10" }] (str "0.10") := by
  refine ⟨by decide, by decide⟩

/-- C6 amended: host-discovery aggregation is invariant under permutation
of records with pairwise distinct addresses, and port-scanning aggregation
is invariant under permutation of records with pairwise distinct
address-port pairs; with duplicate keys the later record overwrites the
earlier one, so arrival order can matter. -/
theorem c6_amended (tg : List Target) (e proto : Str)
    (l₁ l₂ : List PingReport)
    (hinj : ∀ x ∈ l₁, ∀ y ∈ l₁, x.addr = y.addr → x = y)
    (hp : l₁.Perm l₂)
    (q₁ q₂ : List PortReport)
    (hinjq : ∀ x ∈ q₁, ∀ y ∈ q₁, x.addr = y.addr → x.port = y.port → x = y)
    (hq : q₁.Perm q₂) :
    hdAggregate tg l₁ e = hdAggregate tg l₂ e
    ∧ psAggregate tg proto q₁ e = psAggregate tg proto q₂ e := by
  constructor
  · unfold hdAggregate
    rw [pingMap_perm l₁ l₂ hinj hp]
  · unfold psAggregate
    rw [portMap_perm q₁ q₂ hinjq hq]

/-- C6 witness: concrete two-record sequences with distinct keys aggregate
identically in both orders, for host discovery and for port scanning. -/
theorem c6_witness :
    hdAggregate []
      [({ addr := IpAddr.v4 1, status := PingStatusE.Up, cost := str "0.10" } : PingReport),
        { addr := IpAddr.v4 2, status := PingStatusE.Down, cost := str "0.20" }] (str "0.30")
      = hdAggregate []
        [{ addr := IpAddr.v4 2, status := PingStatusE.Down, cost := str "0.20" },
          { addr := IpAddr.v4 1, status := PingStatusE.Up, cost := str "0.10" }] (str "0.30")
    ∧ psAggregate [] (str "tcp")
      [({ addr := IpAddr.v4 1, port := 80, status := PortStatusE.Open, cost := str "0.10" } :
          PortReport),
        { addr := IpAddr.v4 1, port := 443, status := PortStatusE.Closed, cost := str "0.20" }]
      (str "0.30")
      = psAggregate [] (str "tcp")
        [{ addr := IpAddr.v4 1, port := 443, status := PortStatusE.Closed, cost := str "0.20" },
          { addr := IpAddr.v4 1, port := 80, status := PortStatusE.Open, cost := str "0.10" }]
        (str "0.30") :=
  c6_amended [] (str "0.30") (str "tcp") _ _ (by decide) (by decide) _ _ (by decide) (by decide)

/-- C10 witness: a concrete whitespace-only input yields the empty
sequence, and a concrete file with a trailing blank line resolves exactly
as the same file without it. -/
theorem c10_witness :
    parseAddrs extModel false (str " ") none = some []
    ∧ targetFromFile extModel false [str "1.2.3.4", str ""] none
        = targetFromFile extModel false [str "1.2.3.4"] none := by
  refine ⟨c10_blank_inputs.1 extModel false (str " ") none (by decide), ?_⟩
  have h := c10_blank_inputs.2 extModel false none [str "1.2.3.4"] [] (str "") (by decide)
  simpa using h

end Pslmap
